import Mathlib

/-!
Verification of the voxel-world core of `src/game.js` (a chunked,
procedurally generated block world with player interaction).

The JavaScript source is shallowly embedded as follows:

* The sparse voxel store `this.worldData : Map<string, int>` keyed by
  `"x,y,z"` (integer coordinates) is modelled as a partial function
  `World := Int × Int × Int → Option Nat`; an absent entry is `none`.
  The string key `getBlockKey` is injective on integer triples, so the
  key encoding is dropped.
* Block type constants (`BLOCK_TYPES`): AIR = 0, DIRT = 1, GRASS = 2,
  STONE = 3, WOOD = 4, LEAVES = 5.
* JavaScript numbers that only ever hold integers are modelled as `Int`
  (`Math.floor` on them is the identity); genuinely fractional numbers
  (player position, velocity, noise samples) are modelled as `ℚ`,
  reading the source's decimal literals exactly.
* The ambient simplex-noise function `this.noise2D` (seeded randomly at
  start-up, used as an opaque pure function by the core) is a parameter
  `n : ℚ → ℚ → ℚ` of every definition that samples it.
* Imperative loops that only call `setBlock` are embedded as a fold of
  `setBlock` over the explicit list of writes the loop performs, in the
  loop's iteration order (`applyWrites`).
-/

/-- The sparse world mapping (`this.worldData`). `none` = no entry. -/
def World : Type := Int × Int × Int → Option Nat

/-- `getBlock(x, y, z)` (game.js:302-305): an absent entry reads as
`AIR` (`... || BLOCK_TYPES.AIR`). Coordinates are already integers. -/
def getBlock (w : World) (p : Int × Int × Int) : Nat :=
  (w p).getD 0

/-- `setBlock(x, y, z, type)` (game.js:307-314): setting `AIR` deletes
the entry, anything else stores it. -/
def setBlock (w : World) (p : Int × Int × Int) (t : Nat) : World :=
  fun q => if q = p then (if t = 0 then none else some t) else w q

/-- The initial store: `new Map()` (game.js:57). -/
def emptyWorld : World := fun _ => none

/-- A sequence of `setBlock` calls, performed left to right. -/
def applyWrites (w : World) (l : List ((Int × Int × Int) × Nat)) : World :=
  l.foldl (fun w' e => setBlock w' e.1 e.2) w

theorem applyWrites_nil (w : World) : applyWrites w [] = w := rfl

theorem applyWrites_cons (w : World) (e : (Int × Int × Int) × Nat)
    (l : List ((Int × Int × Int) × Nat)) :
    applyWrites w (e :: l) = applyWrites (setBlock w e.1 e.2) l := rfl

theorem applyWrites_append (w : World) (l₁ l₂ : List ((Int × Int × Int) × Nat)) :
    applyWrites w (l₁ ++ l₂) = applyWrites (applyWrites w l₁) l₂ :=
  List.foldl_append _ _ _ _

theorem setBlock_apply_ne (w : World) (p q : Int × Int × Int) (t : Nat)
    (h : q ≠ p) : setBlock w p t q = w q := by
  simp [setBlock, h]

theorem setBlock_apply_self (w : World) (p : Int × Int × Int) (t : Nat) :
    setBlock w p t p = if t = 0 then none else some t := by
  simp [setBlock]

/-- A position touched by none of the writes keeps its old value. -/
theorem applyWrites_apply_of_not_written (l : List ((Int × Int × Int) × Nat))
    (w : World) (p : Int × Int × Int) (h : ∀ e ∈ l, e.1 ≠ p) :
    applyWrites w l p = w p := by
  revert h
  induction l generalizing w with
  | nil => intro _; rfl
  | cons e t ih =>
      intro h
      rw [applyWrites_cons, ih _ (fun e' he' => h e' (List.mem_cons_of_mem _ he'))]
      exact setBlock_apply_ne _ _ _ _ (fun hq => h e (List.mem_cons_self _ _) hq.symm)

/-- If some write targets `p` and every write targeting `p` carries the
same non-`AIR` value `v`, the final entry at `p` is `v`. -/
theorem applyWrites_apply_of_written (l : List ((Int × Int × Int) × Nat))
    (w : World) (p : Int × Int × Int) (v : Nat) (hv : v ≠ 0)
    (hex : ∃ e ∈ l, e.1 = p) (hall : ∀ e ∈ l, e.1 = p → e.2 = v) :
    applyWrites w l p = some v := by
  revert hex hall
  induction l generalizing w with
  | nil => intro hex _; exact absurd hex (by simp)
  | cons e t ih =>
      intro hex hall
      rw [applyWrites_cons]
      by_cases ht : ∃ e' ∈ t, e'.1 = p
      · exact ih _ ht (fun e' he' => hall e' (List.mem_cons_of_mem _ he'))
      · obtain ⟨e', he', hkey⟩ := hex
        rcases List.mem_cons.mp he' with rfl | hmem
        · rw [applyWrites_apply_of_not_written _ _ _
            (fun e'' he'' hk => ht ⟨e'', he'', hk⟩)]
          have hv2 : e'.2 = v := hall e' (List.mem_cons_self _ _) hkey
          subst hkey
          rw [setBlock_apply_self, hv2, if_neg hv]
        · exact absurd ⟨e', hmem, hkey⟩ ht

/-- After any burst of writes, no stored entry is `AIR`, provided none
was before. -/
theorem applyWrites_no_air (l : List ((Int × Int × Int) × Nat)) (w : World)
    (hw : ∀ p, w p ≠ some 0) : ∀ p, applyWrites w l p ≠ some 0 := by
  revert hw
  induction l generalizing w with
  | nil => exact fun hw => hw
  | cons e t ih =>
      intro hw p
      rw [applyWrites_cons]
      refine ih _ (fun q => ?_) p
      by_cases hq : q = e.1
      · subst hq
        rw [setBlock_apply_self]
        split
        · exact fun h => Option.noConfusion h
        · next h => simpa using h
      · rw [setBlock_apply_ne _ _ _ _ hq]
        exact hw q

/-- C1. VoxelStore invariant: after any sequence of `setBlock` calls on
the initially empty store (including calls that set a cell to `Air`,
which delete the entry), no entry of the world mapping holds the value
`Air`, and `getBlock` on any coordinate with no entry returns `Air`. -/
theorem voxelStore_invariant (ops : List ((Int × Int × Int) × Nat))
    (p : Int × Int × Int) :
    applyWrites emptyWorld ops p ≠ some 0 ∧
      (applyWrites emptyWorld ops p = none →
        getBlock (applyWrites emptyWorld ops) p = 0) := by
  constructor
  · exact applyWrites_no_air ops emptyWorld (fun _ h => Option.noConfusion h) p
  · intro h
    simp [getBlock, h]

/-- C1 witness: set a block at the origin, then set the same cell to
`Air`; the entry is gone, it does not hold `Air`, and `getBlock` reads
`Air` there. -/
theorem voxelStore_invariant_witness :
    applyWrites emptyWorld [((0, 0, 0), 1), ((0, 0, 0), 0)] (0, 0, 0) ≠ some 0 ∧
      getBlock (applyWrites emptyWorld [((0, 0, 0), 1), ((0, 0, 0), 0)]) (0, 0, 0) = 0 :=
  ⟨(voxelStore_invariant [((0, 0, 0), 1), ((0, 0, 0), 0)] (0, 0, 0)).1,
   (voxelStore_invariant [((0, 0, 0), 1), ((0, 0, 0), 0)] (0, 0, 0)).2 (by decide)⟩

/-!
## Inventory (game.js:59-65, 211-223)
JS counts are numbers; they are modelled as `Int` so that the
non-negativity invariant is a real statement.  The `count` argument of
both operations is a natural number (every call site passes `1`, the
declared default).
-/

/-- Per-block-type counts; `this.inventory`, all slots starting at 0. -/
def Inventory : Type := Nat → Int

/-- Initial inventory (game.js:59-65): every count 0. -/
def emptyInventory : Inventory := fun _ => 0

/-- `addToInventory(blockType, count)` (game.js:211-214). -/
def addToInventory (inv : Inventory) (t : Nat) (c : Nat) : Inventory :=
  fun t' => if t' = t then inv t' + c else inv t'

/-- `removeFromInventory(blockType, count)` (game.js:216-223): checks
`inventory[blockType] >= count` before mutating; returns success. -/
def removeFromInventory (inv : Inventory) (t : Nat) (c : Nat) : Inventory × Bool :=
  if (c : Int) ≤ inv t then
    (fun t' => if t' = t then inv t' - c else inv t', true)
  else (inv, false)

/-- An inventory operation: one call to `addToInventory` or to
`removeFromInventory` (whose Boolean result the sequence discards). -/
inductive InvOp where
  | add : Nat → Nat → InvOp
  | remove : Nat → Nat → InvOp

/-- Run a sequence of inventory operations from the initial state. -/
def applyInvOps (inv : Inventory) (ops : List InvOp) : Inventory :=
  ops.foldl
    (fun i o =>
      match o with
      | InvOp.add t c => addToInventory i t c
      | InvOp.remove t c => (removeFromInventory i t c).1)
    inv

theorem applyInvOps_nonneg (ops : List InvOp) (inv : Inventory)
    (h : ∀ t, 0 ≤ inv t) : ∀ t, 0 ≤ applyInvOps inv ops t := by
  revert h
  induction ops generalizing inv with
  | nil => exact fun h => h
  | cons o t ih =>
      intro h
      refine ih _ (fun ty => ?_)
      match o with
      | InvOp.add ty' c =>
          simp only [addToInventory]
          split
          · have := h ty
            positivity
          · exact h ty
      | InvOp.remove ty' c =>
          simp only [removeFromInventory]
          split
          · next hc =>
              simp only []
              split
              · next he => simp only [he] at hc ⊢; omega
              · exact h ty
          · exact h ty

/-- C6. Inventory invariant: for every block type and every sequence of
add/remove operations from the initial all-zero inventory, the count
stays ≥ 0; `remove(type, n)` returns `false` and leaves the inventory
unchanged whenever the current count is less than `n`, and otherwise
decrements the count by `n` and returns `true`. -/
theorem inventory_invariant :
    (∀ (ops : List InvOp) (t : Nat), 0 ≤ applyInvOps emptyInventory ops t) ∧
      (∀ (inv : Inventory) (t : Nat) (n : Nat),
        (inv t < n → removeFromInventory inv t n = (inv, false)) ∧
          ((n : Int) ≤ inv t →
            removeFromInventory inv t n =
              (fun t' => if t' = t then inv t' - n else inv t', true))) := by
  refine ⟨fun ops t => applyInvOps_nonneg ops emptyInventory (fun _ => le_refl 0) t,
    fun inv t n => ⟨fun hlt => ?_, fun hge => ?_⟩⟩
  · rw [removeFromInventory, if_neg (by omega)]
  · rw [removeFromInventory, if_pos hge]

/-- C6 witness: from the empty inventory, after adding 2 of type 1 and
removing 1, the count of type 1 is ≥ 0; removing 5 of type 1 from a
single-item inventory fails without mutation, while removing 1
succeeds and decrements the count to 0. -/
theorem inventory_invariant_witness :
    0 ≤ applyInvOps emptyInventory [InvOp.add 1 2, InvOp.remove 1 1] 1 ∧
      removeFromInventory (addToInventory emptyInventory 1 1) 1 5 =
        (addToInventory emptyInventory 1 1, false) ∧
      removeFromInventory (addToInventory emptyInventory 1 1) 1 1 =
        (fun t' => if t' = 1 then addToInventory emptyInventory 1 1 t' - 1
          else addToInventory emptyInventory 1 1 t', true) :=
  ⟨inventory_invariant.1 [InvOp.add 1 2, InvOp.remove 1 1] 1,
   (inventory_invariant.2 (addToInventory emptyInventory 1 1) 1 5).1
     (by simp [addToInventory, emptyInventory]),
   (inventory_invariant.2 (addToInventory emptyInventory 1 1) 1 1).2
     (by simp [addToInventory, emptyInventory])⟩

/-!
## Block placement (game.js:334-373)
`placeBlock` is modelled from the point where the raycast (supplied by
the rendering collaborator) has produced the target cell `target`
(`selectedBlock.position + face normal`, an integer triple).  The
player/camera position is a rational triple.  The subsequent chunk-mesh
rebuild touches only render state, not the store or the inventory.
-/

/-- `pos.clone().subScalar(0.5)` (game.js:350). -/
def blockMin (target : Int × Int × Int) : ℚ × ℚ × ℚ :=
  ((target.1 : ℚ) - 1/2, (target.2.1 : ℚ) - 1/2, (target.2.2 : ℚ) - 1/2)

/-- `pos.clone().addScalar(0.5)` (game.js:351). -/
def blockMax (target : Int × Int × Int) : ℚ × ℚ × ℚ :=
  ((target.1 : ℚ) + 1/2, (target.2.1 : ℚ) + 1/2, (target.2.2 : ℚ) + 1/2)

/-- Player bounding-box minimum corner (game.js:352):
`(x - playerWidth, y - playerHeight, z - playerWidth)` with
`playerWidth = 0.3`, `playerHeight = 1.8`. -/
def playerMin (ppos : ℚ × ℚ × ℚ) : ℚ × ℚ × ℚ :=
  (ppos.1 - 3/10, ppos.2.1 - 9/5, ppos.2.2 - 3/10)

/-- Player bounding-box maximum corner (game.js:353):
`(x + playerWidth, y + 0.2, z + playerWidth)`. -/
def playerMax (ppos : ℚ × ℚ × ℚ) : ℚ × ℚ × ℚ :=
  (ppos.1 + 3/10, ppos.2.1 + 1/5, ppos.2.2 + 3/10)

/-- `boxesIntersect(min1, max1, min2, max2)` (game.js:369-373). -/
def boxesIntersect (min1 max1 min2 max2 : ℚ × ℚ × ℚ) : Bool :=
  (decide (min1.1 ≤ max2.1) && decide (min2.1 ≤ max1.1)) &&
    (decide (min1.2.1 ≤ max2.2.1) && decide (min2.2.1 ≤ max1.2.1)) &&
    (decide (min1.2.2 ≤ max2.2.2) && decide (min2.2.2 ≤ max1.2.2))

/-- `placeBlock()` (game.js:334-367) after a successful raycast: the
early-out on an empty selected slot, the player-overlap rejection, and
the guarded inventory decrement followed by the block write.  Returns
the new store, the new inventory, and whether a block was placed. -/
def placeBlock (w : World) (inv : Inventory) (bt : Nat) (ppos : ℚ × ℚ × ℚ)
    (target : Int × Int × Int) : World × Inventory × Bool :=
  if inv bt ≤ 0 then (w, inv, false)
  else if boxesIntersect (blockMin target) (blockMax target)
      (playerMin ppos) (playerMax ppos) then (w, inv, false)
  else
    let r := removeFromInventory inv bt 1
    if r.2 then (setBlock w target bt, r.1, true) else (w, r.1, false)

/-- C5. Placement guard: if the target cell's box overlaps the player's
bounding volume, placement is rejected with no inventory change and no
block write; if it does not overlap and the selected type's count is at
least 1, placement succeeds, writes the block, and decrements that
count by exactly 1. -/
theorem placement_guard (w : World) (inv : Inventory) (bt : Nat)
    (ppos : ℚ × ℚ × ℚ) (target : Int × Int × Int) :
    (boxesIntersect (blockMin target) (blockMax target)
        (playerMin ppos) (playerMax ppos) = true →
      placeBlock w inv bt ppos target = (w, inv, false)) ∧
      (boxesIntersect (blockMin target) (blockMax target)
          (playerMin ppos) (playerMax ppos) = false →
        1 ≤ inv bt →
        placeBlock w inv bt ppos target =
          (setBlock w target bt,
            fun t' => if t' = bt then inv t' - 1 else inv t', true)) := by
  constructor
  · intro hbox
    simp [placeBlock, hbox]
  · intro hbox hcount
    have hr : removeFromInventory inv bt 1 =
        (fun t' => if t' = bt then inv t' - 1 else inv t', true) := by
      rw [removeFromInventory, if_pos (by exact_mod_cast hcount)]
      norm_num
    simp only [placeBlock, hbox, Bool.false_eq_true, if_false, hr]
    rw [if_neg (show ¬inv bt ≤ 0 by omega)]
    simp

/-- A concrete inventory holding exactly one block of type 1 (Dirt). -/
def invOne : Inventory := fun t => if t = 1 then 1 else 0

/-- C5 witness: with the player at the origin, placing into the
player-overlapping cell `(0,0,0)` is rejected without change, while
placing at the far cell `(10,10,10)` succeeds, writes the block, and
decrements the count of the selected type by 1. -/
theorem placement_guard_witness :
    placeBlock emptyWorld invOne 1 (0, 0, 0) (0, 0, 0) = (emptyWorld, invOne, false) ∧
      placeBlock emptyWorld invOne 1 (0, 0, 0) (10, 10, 10) =
        (setBlock emptyWorld (10, 10, 10) 1,
          fun t' => if t' = 1 then invOne t' - 1 else invOne t', true) :=
  ⟨(placement_guard emptyWorld invOne 1 (0, 0, 0) (0, 0, 0)).1
      (by norm_num [boxesIntersect, blockMin, blockMax, playerMin, playerMax]),
   (placement_guard emptyWorld invOne 1 (0, 0, 0) (10, 10, 10)).2
      (by norm_num [boxesIntersect, blockMin, blockMax, playerMin, playerMax])
      (by norm_num [invOne])⟩

/-!
## Player physics (game.js:617-635, 637-691)
`checkCollision` and the vertical part of `updatePlayer` are embedded
over exact rationals.  `updatePlayerVertical` models one `updatePlayer`
call with no horizontal movement keys held (in that case lines 653-674
leave `x` and `z` unchanged, whatever the collision tests return, and
the camera's look direction is irrelevant): the gravity update (line
640), the vertical move with per-axis collision resolution (lines
666, 676-685), and the fall-out-of-world respawn (lines 687-690).
Constants: gravity 30, playerWidth 0.3, playerHeight 1.8.
-/

/-- `checkCollision(x, y, z)` (game.js:617-635): 8 corners of the
player box, each floor-truncated and looked up in the store. -/
def checkCollision (w : World) (x y z : ℚ) : Bool :=
  [(x - 3/10, y, z - 3/10), (x + 3/10, y, z - 3/10),
   (x - 3/10, y, z + 3/10), (x + 3/10, y, z + 3/10),
   (x - 3/10, y - 9/5, z - 3/10), (x + 3/10, y - 9/5, z - 3/10),
   (x - 3/10, y - 9/5, z + 3/10), (x + 3/10, y - 9/5, z + 3/10)].any
    fun c => getBlock w (⌊c.1⌋, ⌊c.2.1⌋, ⌊c.2.2⌋) != 0

/-- One `updatePlayer(delta)` step with no movement keys held, reduced
to its vertical resolution: gravity, the candidate `newY`, the
collision branch (landing snap `Math.floor(newY - playerHeight) + 1 +
playerHeight` and `canJump = true` when falling; any vertical collision
zeroes `velocity.y`), then the `y < -50` respawn to `(0, 20, 0)`.
Returns (position, vertical velocity, canJump). -/
def updatePlayerVertical (w : World) (x z y vy delta : ℚ) (canJump : Bool) :
    (ℚ × ℚ × ℚ) × ℚ × Bool :=
  let vy1 := vy - 30 * delta
  let newY := y + vy1 * delta
  let res : ℚ × ℚ × Bool :=
    if !checkCollision w x newY z then (newY, vy1, canJump)
    else if vy1 < 0 then (((⌊newY - 9/5⌋ : Int) : ℚ) + 1 + 9/5, 0, true)
    else (y, 0, canJump)
  if res.1 < -50 then ((0, 20, 0), 0, res.2.2) else ((x, res.1, z), res.2.1, res.2.2)

/-- A world holding exactly one block, of type Stone, at cell
`(0, 10, 0)` — at the falling player's head level, not at their feet. -/
def wHead : World := fun p => if p = (0, 10, 0) then some 3 else none

/-- C7 counterexample: a physics step of `wHead` with the player at
`(0.5, 10.9, 0.5)`, `vy = -1`, `delta = 0.1` (post-gravity velocity
`-4 < 0`, candidate `newY = 10.5`).  The candidate position collides
(the head corners fall in the solid cell `(0,10,0)`, the only block of
`wHead`, whose top is at `11`), yet the resulting `Y` is
`⌊10.5 - 1.8⌋ + 1 + 1.8 = 10.8`, not block top + playerHeight
`= 11 + 1.8 = 12.8`: the claim's snap formula is wrong when the
obstruction is not at foot level. -/
theorem landing_resolution_counterexample :
    ((-1 : ℚ) - 30 * (1/10) < 0) ∧
      checkCollision wHead (1/2) ((109:ℚ)/10 + ((-1) - 30 * (1/10)) * (1/10)) (1/2) = true ∧
      getBlock wHead (0, 10, 0) = 3 ∧
      updatePlayerVertical wHead (1/2) (1/2) (109/10) (-1) (1/10) false =
        ((1/2, 54/5, 1/2), 0, true) ∧
      (54/5 : ℚ) ≠ ((10 : ℚ) + 1) + 9/5 := by
  refine ⟨by norm_num, ?_, by norm_num [getBlock, wHead], ?_, by norm_num⟩
  · norm_num [checkCollision, getBlock, wHead]
  · norm_num [updatePlayerVertical, checkCollision, getBlock, wHead]

/-- C7 (amended). Landing resolution: in a physics step where the
player is falling (post-gravity vertical velocity `vy - 30·delta < 0`)
and the cell at the feet corner of the candidate position is solid,
and the snap height `⌊newY - playerHeight⌋ + 1 + playerHeight` is not
below the `-50` respawn threshold, the grounded flag becomes true, the
vertical velocity is set to 0, and the player's `Y` becomes the top of
the obstructing feet-level block (`⌊newY - 1.8⌋ + 1`) plus
`playerHeight`. -/
theorem landing_resolution (w : World) (x z y vy delta : ℚ) (cj : Bool)
    (hfall : vy - 30 * delta < 0)
    (hfeet : getBlock w
      (⌊x - 3/10⌋, ⌊y + (vy - 30 * delta) * delta - 9/5⌋, ⌊z - 3/10⌋) ≠ 0)
    (hthr : ¬(((⌊y + (vy - 30 * delta) * delta - 9/5⌋ : Int) : ℚ) + 1 + 9/5 < -50)) :
    updatePlayerVertical w x z y vy delta cj =
      ((x, ((⌊y + (vy - 30 * delta) * delta - 9/5⌋ : Int) : ℚ) + 1 + 9/5, z), 0, true) := by
  have hcol : checkCollision w x (y + (vy - 30 * delta) * delta) z = true := by
    unfold checkCollision
    rw [List.any_eq_true]
    exact ⟨(x - 3/10, y + (vy - 30 * delta) * delta - 9/5, z - 3/10),
      by simp, by simpa [bne] using hfeet⟩
  simp only [updatePlayerVertical, hcol, Bool.not_true, Bool.false_eq_true, if_false]
  rw [if_pos hfall]
  simp only []
  rw [if_neg hthr]

/-- A world holding exactly one block, of type Grass, at cell
`(0, 9, 0)`: a floor under the falling player's feet. -/
def wFloor : World := fun p => if p = (0, 9, 0) then some 2 else none

/-- C7 witness: the player at `(0.5, 11.75, 0.5)` with `vy = -1` and
`delta = 0.1` lands on the floor block at `(0, 9, 0)` (top at `10`):
the step yields grounded, zero vertical velocity, and
`Y = 10 + 1.8 = 11.8`. -/
theorem landing_resolution_witness :
    updatePlayerVertical wFloor (1/2) (1/2) (47/4) (-1) (1/10) false =
      ((1/2, 59/5, 1/2), 0, true) := by
  have h := landing_resolution wFloor (1/2) (1/2) (47/4) (-1) (1/10) false
    (by norm_num) (by norm_num [getBlock, wFloor]) (by norm_num)
  rw [h]
  norm_num

/-!
## Terrain generation (game.js:383-447)
-/

/-- `generateHeight(x, z)` (game.js:383-392): two noise octaves
(scales 0.015 and 0.04, amplitudes 4 and 2) summed, `Math.floor(· + 10)`. -/
def generateHeight (n : ℚ → ℚ → ℚ) (x z : Int) : Int :=
  ⌊n ((x : ℚ) * (15/1000)) ((z : ℚ) * (15/1000)) * 4 +
    n ((x : ℚ) * (4/100)) ((z : ℚ) * (4/100)) * 2 + 10⌋

/-- The strata block type chosen at height `y` in a column of surface
height `h` (game.js:411-418): `y == height → Grass`,
`y > height - 3 → Dirt`, else `Stone`. -/
def strataType (y h : Int) : Nat :=
  if y = h then 2 else if y > h - 3 then 1 else 3

/-- The strata writes of one `(x, z)` column (game.js:410-420):
`setBlock(worldX, y, worldZ, blockType)` for `y = 0 .. height`. -/
def strataWrites (n : ℚ → ℚ → ℚ) (wx wz : Int) : List ((Int × Int × Int) × Nat) :=
  (List.range (generateHeight n wx wz + 1).toNat).map
    fun (y : Nat) => ((wx, (y : Int), wz), strataType y (generateHeight n wx wz))

theorem strataType_ne_zero (y h : Int) : strataType y h ≠ 0 := by
  unfold strataType
  split
  · decide
  · split
    · decide
    · decide

theorem mem_strataWrites (n : ℚ → ℚ → ℚ) (wx wz : Int)
    (e : (Int × Int × Int) × Nat) :
    e ∈ strataWrites n wx wz ↔
      ∃ a : Nat, (a : Int) ≤ generateHeight n wx wz ∧
        e = ((wx, (a : Int), wz), strataType a (generateHeight n wx wz)) := by
  unfold strataWrites
  simp only [List.mem_map, List.mem_range]
  constructor
  · rintro ⟨a, ha, rfl⟩
    exact ⟨a, by omega, rfl⟩
  · rintro ⟨a, ha, rfl⟩
    exact ⟨a, by omega, rfl⟩

/-- C4. Terrain strata: running the strata loop of one `(x, z)` column
writes exactly the cells `y = 0 .. height` of that column, giving each
the strata type (`Grass` at the surface, `Dirt` in the 2 cells beneath
it, `Stone` below); every other cell of the store — in particular every
cell of the column above `height` — is left unchanged. -/
theorem terrain_strata (n : ℚ → ℚ → ℚ) (w : World) (wx wz x y z : Int) :
    getBlock (applyWrites w (strataWrites n wx wz)) (x, y, z) =
      if x = wx ∧ z = wz ∧ 0 ≤ y ∧ y ≤ generateHeight n wx wz then
        strataType y (generateHeight n wx wz)
      else getBlock w (x, y, z) := by
  by_cases hc : x = wx ∧ z = wz ∧ 0 ≤ y ∧ y ≤ generateHeight n wx wz
  · rw [if_pos hc]
    obtain ⟨rfl, rfl, hy0, hyh⟩ := hc
    unfold getBlock
    rw [applyWrites_apply_of_written _ _ _ (strataType y (generateHeight n x z))
      (strataType_ne_zero _ _) ?_ ?_]
    · rfl
    · refine ⟨((x, y, z), strataType y (generateHeight n x z)),
        (mem_strataWrites _ _ _ _).2 ⟨y.toNat, by omega, ?_⟩, rfl⟩
      rw [Int.toNat_of_nonneg hy0]
    · intro e he hkey
      obtain ⟨a, ha, rfl⟩ := (mem_strataWrites _ _ _ _).1 he
      simp only [Prod.mk.injEq] at hkey
      rw [← hkey.2.1]
  · rw [if_neg hc]
    unfold getBlock
    rw [applyWrites_apply_of_not_written]
    intro e he hkey
    obtain ⟨a, ha, rfl⟩ := (mem_strataWrites _ _ _ _).1 he
    simp only [Prod.mk.injEq] at hkey
    exact hc ⟨hkey.1.symm, hkey.2.2.symm, by omega, by omega⟩

/-- C4 witness: with the constant-zero noise sample the surface height
is 10; the bottom cell of column `(0, 0)` reads Stone, the surface cell
reads Grass, the cell just below it Dirt, and a cell above the surface
is untouched. -/
theorem terrain_strata_witness :
    getBlock (applyWrites emptyWorld (strataWrites (fun _ _ => 0) 0 0)) (0, 0, 0) = 3 ∧
      getBlock (applyWrites emptyWorld (strataWrites (fun _ _ => 0) 0 0)) (0, 10, 0) = 2 ∧
      getBlock (applyWrites emptyWorld (strataWrites (fun _ _ => 0) 0 0)) (0, 9, 0) = 1 ∧
      getBlock (applyWrites emptyWorld (strataWrites (fun _ _ => 0) 0 0)) (0, 11, 0) = 0 := by
  have hh : generateHeight (fun _ _ => 0) 0 0 = 10 := by
    norm_num [generateHeight]
  refine ⟨?_, ?_, ?_, ?_⟩ <;>
    rw [terrain_strata (fun _ _ => 0) emptyWorld 0 0] <;>
    simp [hh, strataType, getBlock, emptyWorld]

/-- Trunk height (game.js:430):
`4 + Math.floor(noise2D(x*10, z*10) * 2 + 1)`. -/
def trunkHeight (n : ℚ → ℚ → ℚ) (x z : Int) : Int :=
  4 + ⌊n ((x : ℚ) * 10) ((z : ℚ) * 10) * 2 + 1⌋

/-- One leaf layer of the canopy (game.js:438-445): offsets
`(lx, lz) ∈ [-radius, radius]²`, skipping the four corners
(`Math.abs(lx) === radius && Math.abs(lz) === radius`) and, on layers
below the trunk top (`below`), the centre column; every generated cell
receives Leaves.  The two `continue`s are merged into one guard. -/
def leafLayer (x z ly : Int) (below : Bool) : List ((Int × Int × Int) × Nat) :=
  let r : Nat := if below then 2 else 1
  (List.range (2 * r + 1)).flatMap fun (a : Nat) =>
    (List.range (2 * r + 1)).flatMap fun (b : Nat) =>
      if (((a : Int) - r).natAbs = r ∧ ((b : Int) - r).natAbs = r) ∨
          ((a : Int) - r = 0 ∧ (b : Int) - r = 0 ∧ below = true) then []
      else [((x + ((a : Int) - r), ly, z + ((b : Int) - r)), 5)]

/-- All writes of `generateTree(x, y, z)` (game.js:429-447), in program
order: the trunk (`trunkHeight` Wood blocks from the root up), then the
leaf layers for `ly = leafStart = y + trunkHeight - 2` while
`ly < y + trunkHeight + 2` — always exactly 4 layers, with radius 2
below the trunk top (`ly < y + trunkHeight`) and radius 1 at or
above it. -/
def treeWrites (n : ℚ → ℚ → ℚ) (x y z : Int) : List ((Int × Int × Int) × Nat) :=
  ((List.range (trunkHeight n x z).toNat).map
      fun (i : Nat) => ((x, y + (i : Int), z), 4)) ++
    ((List.range 4).flatMap fun (j : Nat) =>
      leafLayer x z (y + trunkHeight n x z - 2 + (j : Int))
        (decide (y + trunkHeight n x z - 2 + (j : Int) < y + trunkHeight n x z)))

/-- `generateTree(x, y, z)` (game.js:429-447). -/
def generateTree (n : ℚ → ℚ → ℚ) (x y z : Int) (w : World) : World :=
  applyWrites w (treeWrites n x y z)

/-- The cells the trunk of a tree rooted at `(x, y, z)` occupies. -/
abbrev isTreeTrunk (n : ℚ → ℚ → ℚ) (x y z : Int) (p : Int × Int × Int) : Prop :=
  p.1 = x ∧ p.2.2 = z ∧ y ≤ p.2.1 ∧ p.2.1 < y + trunkHeight n x z

/-- The cells the canopy of a tree rooted at `(x, y, z)` fills with
Leaves: layers `y + trunkHeight - 2 ≤ ly < y + trunkHeight + 2`, radius
2 below the trunk top and 1 at/above it, minus the four corners of each
layer and minus the centre column while still within trunk height. -/
abbrev isTreeLeaf (n : ℚ → ℚ → ℚ) (x y z : Int) (p : Int × Int × Int) : Prop :=
  y + trunkHeight n x z - 2 ≤ p.2.1 ∧ p.2.1 < y + trunkHeight n x z + 2 ∧
    (p.1 - x).natAbs ≤ (if p.2.1 < y + trunkHeight n x z then 2 else 1) ∧
    (p.2.2 - z).natAbs ≤ (if p.2.1 < y + trunkHeight n x z then 2 else 1) ∧
    ¬((p.1 - x).natAbs = (if p.2.1 < y + trunkHeight n x z then 2 else 1) ∧
      (p.2.2 - z).natAbs = (if p.2.1 < y + trunkHeight n x z then 2 else 1)) ∧
    ¬(p.1 = x ∧ p.2.2 = z ∧ p.2.1 < y + trunkHeight n x z)

theorem mem_leafLayer (x z ly : Int) (below : Bool) (e : (Int × Int × Int) × Nat) :
    e ∈ leafLayer x z ly below ↔
      ∃ lx lz : Int,
        lx.natAbs ≤ (if below then 2 else 1 : Nat) ∧
        lz.natAbs ≤ (if below then 2 else 1 : Nat) ∧
        ¬(lx.natAbs = (if below then 2 else 1 : Nat) ∧
          lz.natAbs = (if below then 2 else 1 : Nat)) ∧
        ¬(lx = 0 ∧ lz = 0 ∧ below = true) ∧
        e = ((x + lx, ly, z + lz), 5) := by
  simp only [leafLayer, List.mem_flatMap, List.mem_range]
  generalize (if below then 2 else 1 : Nat) = R
  constructor
  · rintro ⟨a, ha, b, hb, he⟩
    by_cases hg : (((a : Int) - R).natAbs = R ∧ ((b : Int) - R).natAbs = R) ∨
        ((a : Int) - R = 0 ∧ (b : Int) - R = 0 ∧ below = true)
    · rw [if_pos hg] at he
      exact absurd he (List.not_mem_nil e)
    · rw [if_neg hg] at he
      rw [List.mem_singleton] at he
      subst he
      exact ⟨(a : Int) - R, (b : Int) - R, by omega, by omega,
        fun hc => hg (Or.inl hc), fun hc => hg (Or.inr hc), rfl⟩
  · rintro ⟨lx, lz, h1, h2, h3, h4, rfl⟩
    refine ⟨(lx + R).toNat, by omega, (lz + R).toNat, by omega, ?_⟩
    have hax : (((lx + R).toNat : Int) - R) = lx := by omega
    have haz : (((lz + R).toNat : Int) - R) = lz := by omega
    rw [hax, haz, if_neg (not_or.mpr ⟨h3, h4⟩)]
    exact List.mem_singleton.mpr rfl

theorem leafLayer_val (x z ly : Int) (below : Bool) (e : (Int × Int × Int) × Nat)
    (he : e ∈ leafLayer x z ly below) : e.2 = 5 := by
  obtain ⟨lx, lz, -, -, -, -, rfl⟩ := (mem_leafLayer x z ly below e).1 he
  rfl

theorem leafLayer_key (x z ly : Int) (below : Bool) (e : (Int × Int × Int) × Nat)
    (he : e ∈ leafLayer x z ly below) :
    e.1.2.1 = ly ∧ (e.1.1 - x).natAbs ≤ 2 ∧ (e.1.2.2 - z).natAbs ≤ 2 := by
  obtain ⟨lx, lz, h1, h2, -, -, rfl⟩ := (mem_leafLayer x z ly below e).1 he
  refine ⟨rfl, show (x + lx - x).natAbs ≤ 2 from ?_,
      show (z + lz - z).natAbs ≤ 2 from ?_⟩ <;>
    cases below <;> simp at h1 h2 <;> omega

theorem exists_trunkWrite_iff (n : ℚ → ℚ → ℚ) (x y z : Int) (p : Int × Int × Int) :
    (∃ e ∈ (List.range (trunkHeight n x z).toNat).map
        (fun (i : Nat) => ((x, y + (i : Int), z), (4 : Nat))), e.1 = p) ↔
      isTreeTrunk n x y z p := by
  obtain ⟨px, py, pz⟩ := p
  unfold isTreeTrunk
  dsimp only
  simp only [List.mem_map, List.mem_range]
  constructor
  · rintro ⟨e, ⟨i, hi, rfl⟩, hk⟩
    simp only [Prod.mk.injEq] at hk
    obtain ⟨h1, h2, h3⟩ := hk
    refine ⟨h1.symm, h3.symm, ?_, ?_⟩ <;> omega
  · rintro ⟨rfl, rfl, h3, h4⟩
    refine ⟨((px, y + ((py - y).toNat : Int), pz), 4),
      ⟨(py - y).toNat, by omega, rfl⟩, ?_⟩
    show ((px : Int), y + (((py - y).toNat : Nat) : Int), pz) = (px, py, pz)
    simp only [Prod.mk.injEq, true_and, and_true]
    omega

theorem exists_leafWrite_iff (n : ℚ → ℚ → ℚ) (x y z : Int) (p : Int × Int × Int) :
    (∃ e ∈ (List.range 4).flatMap (fun (j : Nat) =>
        leafLayer x z (y + trunkHeight n x z - 2 + (j : Int))
          (decide (y + trunkHeight n x z - 2 + (j : Int) < y + trunkHeight n x z))),
      e.1 = p) ↔ isTreeLeaf n x y z p := by
  obtain ⟨px, py, pz⟩ := p
  unfold isTreeLeaf
  dsimp only
  constructor
  · rintro ⟨e, he, hk⟩
    rw [List.mem_flatMap] at he
    obtain ⟨j, hj, he⟩ := he
    rw [List.mem_range] at hj
    obtain ⟨lx, lz, h1, h2, h3, h4, rfl⟩ := (mem_leafLayer _ _ _ _ _).1 he
    simp only [Prod.mk.injEq] at hk
    obtain ⟨hkx, hky, hkz⟩ := hk
    rw [hky] at h1 h2 h3 h4
    simp only [decide_eq_true_eq] at h1 h2 h3 h4
    by_cases hb : py < y + trunkHeight n x z <;>
      simp only [hb, if_true, if_false, and_true, true_and, and_false, false_and,
        not_false_iff] at h1 h2 h3 h4 ⊢ <;>
      omega
  · rintro ⟨hl1, hl2, hl3, hl4, hl5, hl6⟩
    have hjlt : (py - (y + trunkHeight n x z - 2)).toNat < 4 := by omega
    have hj' : y + trunkHeight n x z - 2 +
        (((py - (y + trunkHeight n x z - 2)).toNat : Nat) : Int) = py := by omega
    refine ⟨((x + (px - x), py, z + (pz - z)), 5), List.mem_flatMap.mpr
      ⟨(py - (y + trunkHeight n x z - 2)).toNat, List.mem_range.mpr hjlt, ?_⟩,
      by dsimp only; simp only [Prod.mk.injEq, true_and, and_true]; omega⟩
    rw [hj']
    refine (mem_leafLayer x z py (decide (py < y + trunkHeight n x z)) _).2
      ⟨px - x, pz - z, ?_, ?_, ?_, ?_, rfl⟩ <;>
      simp only [decide_eq_true_eq] <;>
      by_cases hb : py < y + trunkHeight n x z <;>
      simp only [hb, if_true, if_false, and_true, true_and, and_false, false_and,
        not_false_iff] at hl3 hl4 hl5 hl6 ⊢ <;>
      omega

theorem trunkWrite_val (n : ℚ → ℚ → ℚ) (x y z : Int) (e : (Int × Int × Int) × Nat)
    (he : e ∈ (List.range (trunkHeight n x z).toNat).map
      (fun (i : Nat) => ((x, y + (i : Int), z), (4 : Nat)))) : e.2 = 4 := by
  simp only [List.mem_map, List.mem_range] at he
  obtain ⟨i, hi, rfl⟩ := he
  rfl

theorem leafWrite_val (n : ℚ → ℚ → ℚ) (x y z : Int) (e : (Int × Int × Int) × Nat)
    (he : e ∈ (List.range 4).flatMap (fun (j : Nat) =>
      leafLayer x z (y + trunkHeight n x z - 2 + (j : Int))
        (decide (y + trunkHeight n x z - 2 + (j : Int) < y + trunkHeight n x z)))) :
    e.2 = 5 := by
  rw [List.mem_flatMap] at he
  obtain ⟨j, hj, he⟩ := he
  exact leafLayer_val _ _ _ _ _ he

/-- C8. Tree shape: for every tree rooted at `(x, y, z)`, the generated
store holds Leaves exactly at the canopy cells (layers
`trunkHeight - 2` to `trunkHeight + 2` above the root minus 2, radius 2
below the trunk top and 1 at/above it, minus the four layer corners and
minus the centre column within trunk height), Wood exactly at the
`trunkHeight = 4 + ⌊noise(x·10, z·10)·2 + 1⌋` trunk cells stacked from
the root, and is unchanged everywhere else. -/
theorem tree_shape (n : ℚ → ℚ → ℚ) (x y z : Int) (w : World) (p : Int × Int × Int) :
    getBlock (generateTree n x y z w) p =
      if isTreeLeaf n x y z p then 5
      else if isTreeTrunk n x y z p then 4
      else getBlock w p := by
  unfold generateTree treeWrites getBlock
  by_cases hleaf : isTreeLeaf n x y z p
  · rw [if_pos hleaf]
    rw [applyWrites_apply_of_written _ _ _ 5 (by decide) ?_ ?_]
    · rfl
    · obtain ⟨e, he, hk⟩ := (exists_leafWrite_iff n x y z p).2 hleaf
      exact ⟨e, List.mem_append_right _ he, hk⟩
    · intro e he hk
      rcases List.mem_append.mp he with hT | hL
      · exact absurd ((exists_trunkWrite_iff n x y z p).1 ⟨e, hT, hk⟩)
          (fun htr => hleaf.2.2.2.2.2 ⟨htr.1, htr.2.1, htr.2.2.2⟩)
      · exact leafWrite_val n x y z e hL
  · rw [if_neg hleaf]
    have hnol : ∀ e ∈ (List.range 4).flatMap (fun (j : Nat) =>
        leafLayer x z (y + trunkHeight n x z - 2 + (j : Int))
          (decide (y + trunkHeight n x z - 2 + (j : Int) < y + trunkHeight n x z))),
        e.1 ≠ p :=
      fun e he hk => hleaf ((exists_leafWrite_iff n x y z p).1 ⟨e, he, hk⟩)
    by_cases htrunk : isTreeTrunk n x y z p
    · rw [if_pos htrunk, applyWrites_append, applyWrites_apply_of_not_written _ _ _ hnol,
        applyWrites_apply_of_written _ _ _ 4 (by decide)
          ((exists_trunkWrite_iff n x y z p).2 htrunk)
          (fun e he _ => trunkWrite_val n x y z e he)]
      rfl
    · rw [if_neg htrunk, applyWrites_append, applyWrites_apply_of_not_written _ _ _ hnol,
        applyWrites_apply_of_not_written _ _ _
          (fun e he hk => htrunk ((exists_trunkWrite_iff n x y z p).1 ⟨e, he, hk⟩))]

/-- C8 witness: with the constant-zero noise sample (trunk height 5) a
tree rooted at the origin of the empty store has Leaves at offset
`(2, 3, 1)` (first canopy layer, radius 2), Wood at `(0, 2, 0)` (trunk
interior), and nothing at `(0, 7, 0)` (above the canopy). -/
theorem tree_shape_witness :
    getBlock (generateTree (fun _ _ => 0) 0 0 0 emptyWorld) (2, 3, 1) = 5 ∧
      getBlock (generateTree (fun _ _ => 0) 0 0 0 emptyWorld) (0, 2, 0) = 4 ∧
      getBlock (generateTree (fun _ _ => 0) 0 0 0 emptyWorld) (0, 7, 0) = 0 := by
  have hth : trunkHeight (fun _ _ => 0) 0 0 = 5 := by norm_num [trunkHeight]
  refine ⟨?_, ?_, ?_⟩ <;> rw [tree_shape] <;>
    norm_num [isTreeLeaf, isTreeTrunk, hth, getBlock, emptyWorld]

/-!
## Chunk meshing (game.js:449-509)
`buildChunkMesh` scans the chunk's 16×16×64 cells in source order
(x outer, z middle, y inner), keeps the non-Air cells with at least one
Air face-neighbour, and groups them by block type into one batch per
type (`blocksByType` — grouping by key; a batch records the type and
the retained cells in scan order, and only non-empty batches are
emitted).  The render-side instancing (`THREE.InstancedMesh`, the +0.5
centre offsets) carries no further core state.
-/

/-- The face-exposure test of game.js:464-470: some 6-neighbour is Air. -/
def hasExposedFace (w : World) (p : Int × Int × Int) : Bool :=
  getBlock w (p.1 + 1, p.2.1, p.2.2) == 0 || getBlock w (p.1 - 1, p.2.1, p.2.2) == 0 ||
    getBlock w (p.1, p.2.1 + 1, p.2.2) == 0 || getBlock w (p.1, p.2.1 - 1, p.2.2) == 0 ||
    getBlock w (p.1, p.2.1, p.2.2 + 1) == 0 || getBlock w (p.1, p.2.1, p.2.2 - 1) == 0

/-- The world cells of chunk `(cx, cz)` in scan order (game.js:455-459):
`x` in `[0,16)` outer, `z` in `[0,16)` middle, `y` in `[0,64)` inner,
at world coordinates `(cx·16 + x, y, cz·16 + z)`. -/
def chunkCells (cx cz : Int) : List (Int × Int × Int) :=
  ((List.range 16) ×ˢ ((List.range 16) ×ˢ (List.range 64))).map
    fun q => (cx * 16 + (q.1 : Int), (q.2.2 : Int), cz * 16 + (q.2.1 : Int))

/-- The cells of the chunk that survive the Air test and the
face-culling test (game.js:460-472). -/
def visibleCells (w : World) (cx cz : Int) : List (Int × Int × Int) :=
  (chunkCells cx cz).filter fun p => getBlock w p != 0 && hasExposedFace w p

/-- `buildChunkMesh(chunkX, chunkZ)` (game.js:449-509) at the level of
core data: one batch per block type present among the visible cells
(`blocksByType`), each listing its cells in scan order. -/
def buildChunkMesh (w : World) (cx cz : Int) : List (Nat × List (Int × Int × Int)) :=
  ((visibleCells w cx cz).map (getBlock w)).dedup.map
    fun t => (t, (visibleCells w cx cz).filter fun p => getBlock w p == t)

theorem chunkCells_nodup (cx cz : Int) : (chunkCells cx cz).Nodup := by
  unfold chunkCells
  refine List.Nodup.map ?_ (((List.nodup_range 16).product
    ((List.nodup_range 16).product (List.nodup_range 64))))
  rintro ⟨a1, a2, a3⟩ ⟨b1, b2, b3⟩ h
  simp only [Prod.mk.injEq] at h ⊢
  omega

theorem mem_chunkCells (cx cz : Int) (x z y : Nat) (hx : x < 16) (hz : z < 16)
    (hy : y < 64) : (cx * 16 + (x : Int), (y : Int), cz * 16 + (z : Int)) ∈ chunkCells cx cz := by
  unfold chunkCells
  exact List.mem_map.mpr ⟨(x, z, y),
    List.mem_product.mpr ⟨List.mem_range.mpr hx,
      List.mem_product.mpr ⟨List.mem_range.mpr hz, List.mem_range.mpr hy⟩⟩, rfl⟩

theorem mem_visibleCells (w : World) (cx cz : Int) (p : Int × Int × Int) :
    p ∈ visibleCells w cx cz ↔
      p ∈ chunkCells cx cz ∧ getBlock w p ≠ 0 ∧ hasExposedFace w p = true := by
  unfold visibleCells
  rw [List.mem_filter]
  simp [Bool.and_eq_true, bne_iff_ne]

theorem count_eq_one_of_nodup_mem {α : Type} [BEq α] [LawfulBEq α] {l : List α}
    {a : α} (hn : l.Nodup) (ha : a ∈ l) : l.count a = 1 := by
  induction l with
  | nil => exact absurd ha (List.not_mem_nil a)
  | cons b t ih =>
      rw [List.count_cons]
      rcases List.mem_cons.mp ha with rfl | hmem
      · rw [List.count_eq_zero.mpr (List.nodup_cons.mp hn).1]
        simp
      · rw [ih (List.nodup_cons.mp hn).2 hmem]
        have hne : ¬(a == b) = true := fun h =>
          (List.nodup_cons.mp hn).1 (eq_of_beq h ▸ hmem)
        simp [hne]
        exact fun h => (List.nodup_cons.mp hn).1 (h ▸ hmem)

/-- C2. Mesher face culling: the batches of `buildChunkMesh` carry
pairwise distinct block types; a non-Air voxel of the chunk's footprint
and height range with at least one Air face-neighbour appears in the
batch of its own type, exactly once, and in no batch of another type;
and a non-Air voxel all of whose 6 face-neighbours are solid (or any
Air cell) appears in no batch at all. -/
theorem mesher_face_culling (w : World) (cx cz : Int) (x z y : Nat)
    (hx : x < 16) (hz : z < 16) (hy : y < 64)
    (hair : getBlock w (cx * 16 + (x : Int), (y : Int), cz * 16 + (z : Int)) ≠ 0) :
    ((buildChunkMesh w cx cz).map Prod.fst).Nodup ∧
      (hasExposedFace w (cx * 16 + (x : Int), (y : Int), cz * 16 + (z : Int)) = true →
        ∃ l, (getBlock w (cx * 16 + (x : Int), (y : Int), cz * 16 + (z : Int)), l) ∈
            buildChunkMesh w cx cz ∧
          l.count (cx * 16 + (x : Int), (y : Int), cz * 16 + (z : Int)) = 1 ∧
          ∀ t' l', (t', l') ∈ buildChunkMesh w cx cz →
            (cx * 16 + (x : Int), (y : Int), cz * 16 + (z : Int)) ∈ l' →
            t' = getBlock w (cx * 16 + (x : Int), (y : Int), cz * 16 + (z : Int))) ∧
      (hasExposedFace w (cx * 16 + (x : Int), (y : Int), cz * 16 + (z : Int)) = false →
        ∀ t' l', (t', l') ∈ buildChunkMesh w cx cz →
          (cx * 16 + (x : Int), (y : Int), cz * 16 + (z : Int)) ∉ l') := by
  refine ⟨?_, ?_, ?_⟩
  · unfold buildChunkMesh
    rw [List.map_map]
    have : (Prod.fst ∘ fun t => ((t : Nat),
        (visibleCells w cx cz).filter fun p => getBlock w p == t)) = id := by
      funext t
      rfl
    rw [this, List.map_id]
    exact List.nodup_dedup _
  · intro hexp
    have hpmem : (cx * 16 + (x : Int), (y : Int), cz * 16 + (z : Int)) ∈
        visibleCells w cx cz :=
      (mem_visibleCells w cx cz _).2 ⟨mem_chunkCells cx cz x z y hx hz hy, hair, hexp⟩
    refine ⟨(visibleCells w cx cz).filter
        (fun p => getBlock w p == getBlock w (cx * 16 + (x : Int), (y : Int), cz * 16 + (z : Int))),
      ?_, ?_, ?_⟩
    · unfold buildChunkMesh
      exact List.mem_map.mpr
        ⟨getBlock w (cx * 16 + (x : Int), (y : Int), cz * 16 + (z : Int)),
          List.mem_dedup.mpr (List.mem_map.mpr ⟨_, hpmem, rfl⟩), rfl⟩
    · refine count_eq_one_of_nodup_mem
        (List.Nodup.filter _ (List.Nodup.filter _ (chunkCells_nodup cx cz))) ?_
      rw [List.mem_filter]
      exact ⟨hpmem, by simp⟩
    · intro t' l' hl' hpl'
      unfold buildChunkMesh at hl'
      obtain ⟨t'', ht'', heq⟩ := List.mem_map.mp hl'
      rw [Prod.mk.injEq] at heq
      obtain ⟨rfl, rfl⟩ := heq
      have h2 := (List.mem_filter.mp hpl').2
      exact (beq_iff_eq.mp h2).symm
  · intro hexp t' l' hl' hpl'
    unfold buildChunkMesh at hl'
    obtain ⟨t'', ht'', heq⟩ := List.mem_map.mp hl'
    have hl'' : l' = (visibleCells w cx cz).filter fun p => getBlock w p == t'' :=
      (congrArg Prod.snd heq).symm
    rw [hl''] at hpl'
    have hpv := (List.mem_filter.mp hpl').1
    have := ((mem_visibleCells w cx cz _).1 hpv).2.2
    rw [hexp] at this
    exact Bool.false_ne_true this

/-- A world holding exactly one block, of type Stone, at the origin. -/
def wSolo : World := fun p => if p = (0, 0, 0) then some 3 else none

/-- C2 witness: in the one-block world, the origin voxel (type Stone,
all 6 neighbours Air) appears exactly once, in the Stone batch of chunk
`(0, 0)`, and in no other batch. -/
theorem mesher_face_culling_witness :
    ∃ l, (3, l) ∈ buildChunkMesh wSolo 0 0 ∧
      l.count ((0 : Int), (0 : Int), (0 : Int)) = 1 ∧
      ∀ t' l', (t', l') ∈ buildChunkMesh wSolo 0 0 →
        ((0 : Int), (0 : Int), (0 : Int)) ∈ l' → t' = 3 := by
  have h := (mesher_face_culling wSolo 0 0 0 0 0 (by decide) (by decide) (by decide)
    (by decide)).2.1 (by decide)
  simpa [getBlock, wSolo] using h

/-!
## Chunk-level generation and the chunk manager
(game.js:394-398, 400-427, 511-549, 562-581)
A chunk's generation (`generateChunkData`) walks the 16×16 footprint
(x outer, z middle) and, per column, performs the strata writes and
then — when the tree predicate holds and the height exceeds 5 — the
tree writes rooted at `(worldX, height + 1, worldZ)`.  The manager
state is the voxel store plus the loaded-chunk map `this.chunks`
(key → render batches).
-/

/-- `shouldPlaceTree(x, z)` (game.js:394-398): noise thresholds plus a
modulo-7 grid filter (JS `%` is a remainder; `x % 7 === 0` holds
exactly when 7 divides `x`, matching `Int.emod`). -/
def shouldPlaceTree (n : ℚ → ℚ → ℚ) (x z : Int) : Bool :=
  decide ((3 : ℚ)/5 < n ((x : ℚ) * (3/10) + 100) ((z : ℚ) * (3/10) + 100)) &&
    decide ((3 : ℚ)/10 < n ((x : ℚ) * (1/10)) ((z : ℚ) * (1/10))) &&
    decide (x % 7 = 0) && decide (z % 7 = 0)

/-- The tree writes of one column (game.js:422-424): present exactly
when `shouldPlaceTree(worldX, worldZ) && height > 5`. -/
def treeEmit (n : ℚ → ℚ → ℚ) (wx wz : Int) : List ((Int × Int × Int) × Nat) :=
  if shouldPlaceTree n wx wz = true ∧ 5 < generateHeight n wx wz then
    treeWrites n wx (generateHeight n wx wz + 1) wz
  else []

/-- All writes of one `(x, z)` column of `generateChunkData`: strata
first, then the conditional tree. -/
def columnWrites (n : ℚ → ℚ → ℚ) (wx wz : Int) : List ((Int × Int × Int) × Nat) :=
  strataWrites n wx wz ++ treeEmit n wx wz

/-- All writes of `generateChunkData(chunkX, chunkZ)` (game.js:400-427)
in program order. -/
def chunkWrites (n : ℚ → ℚ → ℚ) (cx cz : Int) : List ((Int × Int × Int) × Nat) :=
  (List.range 16).flatMap fun (x : Nat) =>
    (List.range 16).flatMap fun (z : Nat) =>
      columnWrites n (cx * 16 + (x : Int)) (cz * 16 + (z : Int))

/-- The tree writes alone of a chunk's generation (the cells the
regenerated trees touch). -/
def chunkTreeWrites (n : ℚ → ℚ → ℚ) (cx cz : Int) : List ((Int × Int × Int) × Nat) :=
  (List.range 16).flatMap fun (x : Nat) =>
    (List.range 16).flatMap fun (z : Nat) =>
      treeEmit n (cx * 16 + (x : Int)) (cz * 16 + (z : Int))

/-- `generateChunkData(chunkX, chunkZ)` (game.js:400-427). -/
def generateChunkData (n : ℚ → ℚ → ℚ) (cx cz : Int) (w : World) : World :=
  applyWrites w (chunkWrites n cx cz)

/-- The manager state: the voxel store plus the loaded-chunk map
`this.chunks` (render batches per loaded key). -/
structure GState where
  world : World
  chunks : Int × Int → Option (List (Nat × List (Int × Int × Int)))

/-- The initial manager state: empty store, no loaded chunks. -/
def initialGState : GState :=
  { world := emptyWorld, chunks := fun _ => none }

/-- `generateChunk(chunkX, chunkZ)` (game.js:511-520): a no-op when the
key is already loaded, otherwise terrain generation, meshing, and
registration of the batches under the key. -/
def generateChunk (n : ℚ → ℚ → ℚ) (s : GState) (cx cz : Int) : GState :=
  if (s.chunks (cx, cz)).isSome then s
  else
    { world := generateChunkData n cx cz s.world,
      chunks := fun k =>
        if k = (cx, cz) then
          some (buildChunkMesh (generateChunkData n cx cz s.world) cx cz)
        else s.chunks k }

/-- `removeChunk(chunkX, chunkZ)` (game.js:538-549): when loaded,
release the batches (drop them from the map) and delete the key; the
store is untouched. -/
def removeChunk (s : GState) (cx cz : Int) : GState :=
  if (s.chunks (cx, cz)).isSome then
    { world := s.world, chunks := fun k => if k = (cx, cz) then none else s.chunks k }
  else s

/-- The square neighbourhood of chunk keys `updateChunks` requires
(game.js:566-574), in loop order (`x` then `z`, offsets `-r .. r`). -/
def neededKeys (cx cz : Int) (r : Nat) : List (Int × Int) :=
  (List.range (2 * r + 1)).flatMap fun (i : Nat) =>
    (List.range (2 * r + 1)).map fun (j : Nat) =>
      (cx + (i : Int) - (r : Int), cz + (j : Int) - (r : Int))

/-- `updateChunks()` (game.js:562-581) around player chunk `(cx, cz)`
with the radius as a parameter (the source fixes it to the constant
`RENDER_DISTANCE = 4`, see `updateChunks`): `generateChunk` on every
needed key, then `removeChunk` on every loaded key outside the needed
set — denotationally, keys outside the needed set are dropped from the
map and the store is kept. -/
def updateChunksR (n : ℚ → ℚ → ℚ) (r : Nat) (s : GState) (cx cz : Int) : GState :=
  { world := ((neededKeys cx cz r).foldl (fun t k => generateChunk n t k.1 k.2) s).world,
    chunks := fun k =>
      if (neededKeys cx cz r).contains k then
        ((neededKeys cx cz r).foldl (fun t k' => generateChunk n t k'.1 k'.2) s).chunks k
      else none }

/-- `RENDER_DISTANCE` (game.js:7). -/
def RENDER_DISTANCE : Nat := 4

/-- `updateChunks()` exactly as in the source: radius `RENDER_DISTANCE`. -/
def updateChunks (n : ℚ → ℚ → ℚ) (s : GState) (cx cz : Int) : GState :=
  updateChunksR n RENDER_DISTANCE s cx cz

/-- C9. Unload frame condition: unloading a loaded chunk removes the
chunk (and its batches) from the loaded-chunk map while leaving the
VoxelStore world mapping — every entry of it — unchanged, and leaving
every other chunk's entry unchanged. -/
theorem unload_frame (s : GState) (cx cz : Int)
    (hl : (s.chunks (cx, cz)).isSome = true) :
    (removeChunk s cx cz).world = s.world ∧
      (removeChunk s cx cz).chunks (cx, cz) = none ∧
      ∀ k, k ≠ (cx, cz) → (removeChunk s cx cz).chunks k = s.chunks k := by
  unfold removeChunk
  rw [if_pos hl]
  exact ⟨rfl, by simp, fun k hk => by simp [hk]⟩

/-- A manager state with one loaded chunk at key `(0, 0)` (with empty
batches) over the empty store. -/
def sOne : GState :=
  { world := emptyWorld, chunks := fun k => if k = (0, 0) then some [] else none }

/-- C9 witness: unloading the loaded chunk `(0, 0)` of `sOne` keeps the
store, clears that key, and keeps key `(1, 0)`. -/
theorem unload_frame_witness :
    (removeChunk sOne 0 0).world = sOne.world ∧
      (removeChunk sOne 0 0).chunks (0, 0) = none ∧
      (removeChunk sOne 0 0).chunks (1, 0) = sOne.chunks (1, 0) :=
  ⟨(unload_frame sOne 0 0 (by decide)).1,
   (unload_frame sOne 0 0 (by decide)).2.1,
   (unload_frame sOne 0 0 (by decide)).2.2 (1, 0) (by decide)⟩

theorem mem_neededKeys (cx cz : Int) (r : Nat) (k : Int × Int) :
    k ∈ neededKeys cx cz r ↔ (k.1 - cx).natAbs ≤ r ∧ (k.2 - cz).natAbs ≤ r := by
  obtain ⟨a, b⟩ := k
  unfold neededKeys
  simp only [List.mem_flatMap, List.mem_map, List.mem_range]
  constructor
  · rintro ⟨i, hi, j, hj, h⟩
    rw [Prod.mk.injEq] at h
    obtain ⟨h1, h2⟩ := h
    constructor <;> omega
  · rintro ⟨h1, h2⟩
    refine ⟨(a - cx + r).toNat, by omega, (b - cz + r).toNat, by omega, ?_⟩
    rw [Prod.mk.injEq]
    constructor <;> omega

theorem generateChunk_chunks_isSome (n : ℚ → ℚ → ℚ) (s : GState) (cx cz : Int)
    (k : Int × Int) :
    ((generateChunk n s cx cz).chunks k).isSome = true ↔
      ((s.chunks k).isSome = true ∨ k = (cx, cz)) := by
  unfold generateChunk
  split
  · next h =>
      constructor
      · exact Or.inl
      · rintro (hs | rfl)
        · exact hs
        · exact h
  · next h =>
      dsimp only
      by_cases hk : k = (cx, cz)
      · rw [if_pos hk]
        simp [hk]
      · rw [if_neg hk]
        simp [hk]

theorem foldl_generateChunk_isSome (n : ℚ → ℚ → ℚ) (l : List (Int × Int))
    (s : GState) (k : Int × Int) :
    (((l.foldl (fun t k' => generateChunk n t k'.1 k'.2) s).chunks k).isSome = true) ↔
      ((s.chunks k).isSome = true ∨ k ∈ l) := by
  induction l generalizing s with
  | nil => simp
  | cons e t ih =>
      rw [List.foldl_cons, ih, generateChunk_chunks_isSome]
      obtain ⟨e1, e2⟩ := e
      rw [List.mem_cons]
      tauto

/-- C3. Reconciliation: for every player chunk coordinate `(cx, cz)`
and radius `r` (the source fixes `r = RENDER_DISTANCE = 4`), after one
run of chunk reconciliation the loaded-chunk set is exactly
`{(a, b) : |a - cx| ≤ r ∧ |b - cz| ≤ r}`: every chunk inside the square
is loaded, and every chunk outside it — loaded before or not — has no
entry (its batches are released). -/
theorem chunk_reconciliation (n : ℚ → ℚ → ℚ) (r : Nat) (s : GState)
    (cx cz : Int) (k : Int × Int) :
    (((updateChunksR n r s cx cz).chunks k).isSome = true) ↔
      ((k.1 - cx).natAbs ≤ r ∧ (k.2 - cz).natAbs ≤ r) := by
  unfold updateChunksR
  dsimp only
  by_cases hk : k ∈ neededKeys cx cz r
  · rw [if_pos (List.elem_iff.mpr hk), foldl_generateChunk_isSome]
    exact ⟨fun _ => (mem_neededKeys cx cz r k).1 hk, fun _ => Or.inr hk⟩
  · rw [if_neg (fun hc => hk (List.elem_iff.mp hc))]
    simp only [Option.isSome_none, Bool.false_eq_true, false_iff]
    exact fun hb => hk ((mem_neededKeys cx cz r k).2 hb)

theorem treeEmit_subset_chunkTreeWrites (n : ℚ → ℚ → ℚ) (cx cz : Int) (x z : Nat)
    (hx : x < 16) (hz : z < 16) (e : (Int × Int × Int) × Nat)
    (he : e ∈ treeEmit n (cx * 16 + (x : Int)) (cz * 16 + (z : Int))) :
    e ∈ chunkTreeWrites n cx cz :=
  List.mem_flatMap.mpr ⟨x, List.mem_range.mpr hx,
    List.mem_flatMap.mpr ⟨z, List.mem_range.mpr hz, he⟩⟩

theorem treeWrites_key_span (n : ℚ → ℚ → ℚ) (x y z : Int)
    (e : (Int × Int × Int) × Nat) (he : e ∈ treeWrites n x y z) :
    (e.1.1 - x).natAbs ≤ 2 ∧ (e.1.2.2 - z).natAbs ≤ 2 := by
  unfold treeWrites at he
  rcases List.mem_append.mp he with hT | hL
  · simp only [List.mem_map, List.mem_range] at hT
    obtain ⟨i, hi, rfl⟩ := hT
    constructor <;> dsimp only <;> omega
  · rw [List.mem_flatMap] at hL
    obtain ⟨j, hj, hL⟩ := hL
    exact (leafLayer_key _ _ _ _ _ hL).2

theorem treeWrites_val_off_center (n : ℚ → ℚ → ℚ) (x y z : Int)
    (e : (Int × Int × Int) × Nat) (he : e ∈ treeWrites n x y z)
    (hne : e.1.1 ≠ x) : e.2 = 5 := by
  unfold treeWrites at he
  rcases List.mem_append.mp he with hT | hL
  · simp only [List.mem_map, List.mem_range] at hT
    obtain ⟨i, hi, rfl⟩ := hT
    exact absurd rfl hne
  · rw [List.mem_flatMap] at hL
    obtain ⟨j, hj, hL⟩ := hL
    exact leafLayer_val _ _ _ _ _ hL

theorem columnWrites_key_xspan (n : ℚ → ℚ → ℚ) (wx wz : Int)
    (e : (Int × Int × Int) × Nat) (he : e ∈ columnWrites n wx wz) :
    (e.1.1 - wx).natAbs ≤ 2 := by
  unfold columnWrites at he
  rcases List.mem_append.mp he with hs | ht
  · obtain ⟨a, ha, rfl⟩ := (mem_strataWrites _ _ _ _).1 hs
    simp
  · unfold treeEmit at ht
    split at ht
    · exact (treeWrites_key_span _ _ _ _ _ ht).1
    · exact absurd ht (List.not_mem_nil e)

theorem shouldPlaceTree_mod (n : ℚ → ℚ → ℚ) (wx wz : Int)
    (h : shouldPlaceTree n wx wz = true) : wx % 7 = 0 ∧ wz % 7 = 0 := by
  unfold shouldPlaceTree at h
  simp only [Bool.and_eq_true, decide_eq_true_eq] at h
  exact ⟨h.1.2, h.2⟩

/-- The post-regeneration content of a strata cell not touched by any
regenerated tree: its strata type. -/
theorem generateChunkData_strata (n : ℚ → ℚ → ℚ) (cx cz : Int) (w : World)
    (x z : Nat) (y : Int) (hx : x < 16) (hz : z < 16) (hy0 : 0 ≤ y)
    (hyh : y ≤ generateHeight n (cx * 16 + (x : Int)) (cz * 16 + (z : Int)))
    (htree : ∀ e ∈ chunkTreeWrites n cx cz,
      e.1 ≠ (cx * 16 + (x : Int), y, cz * 16 + (z : Int))) :
    getBlock (generateChunkData n cx cz w) (cx * 16 + (x : Int), y, cz * 16 + (z : Int)) =
      strataType y (generateHeight n (cx * 16 + (x : Int)) (cz * 16 + (z : Int))) := by
  unfold generateChunkData getBlock
  rw [applyWrites_apply_of_written _ _ _
    (strataType y (generateHeight n (cx * 16 + (x : Int)) (cz * 16 + (z : Int))))
    (strataType_ne_zero _ _) ?_ ?_]
  · rfl
  · refine ⟨((cx * 16 + (x : Int), y, cz * 16 + (z : Int)),
      strataType y (generateHeight n (cx * 16 + (x : Int)) (cz * 16 + (z : Int)))),
      List.mem_flatMap.mpr ⟨x, List.mem_range.mpr hx,
        List.mem_flatMap.mpr ⟨z, List.mem_range.mpr hz,
          List.mem_append_left _ ((mem_strataWrites _ _ _ _).2
            ⟨y.toNat, by omega, by rw [Int.toNat_of_nonneg hy0]⟩)⟩⟩, rfl⟩
  · intro e he hk
    unfold chunkWrites at he
    rw [List.mem_flatMap] at he
    obtain ⟨x', hx', he⟩ := he
    rw [List.mem_range] at hx'
    rw [List.mem_flatMap] at he
    obtain ⟨z', hz', he⟩ := he
    rw [List.mem_range] at hz'
    unfold columnWrites at he
    rcases List.mem_append.mp he with hs | ht
    · obtain ⟨a, ha, rfl⟩ := (mem_strataWrites _ _ _ _).1 hs
      simp only [Prod.mk.injEq] at hk
      obtain ⟨hk1, hk2, hk3⟩ := hk
      have hxx : x' = x := by omega
      have hzz : z' = z := by omega
      subst hxx
      subst hzz
      dsimp only
      rw [hk2]
    · exact absurd hk (htree e (treeEmit_subset_chunkTreeWrites n cx cz x' z' hx' hz' e ht))

/-- C10 (amended). Re-entering an unloaded chunk regenerates it over
the retained voxel data: `generateChunk` skips exactly when the chunk
key is loaded; on an unloaded key it reruns terrain generation over the
retained store, which rewrites every strata cell (`0 ≤ y ≤ height`) of
the chunk that no regenerated tree of the same chunk touches to its
procedurally generated strata type (restoring player-broken blocks
there — a strata cell under a tree part generated later in the scan
ends as that tree's Wood/Leaves instead), and any cell outside the
chunk generation's write set — for example a player-placed block above
the generated columns — keeps its store entry. -/
theorem chunk_regeneration (n : ℚ → ℚ → ℚ) (s : GState) (cx cz : Int) :
    ((s.chunks (cx, cz)).isSome = true → generateChunk n s cx cz = s) ∧
      ((s.chunks (cx, cz)).isSome = false →
        (generateChunk n s cx cz).world = generateChunkData n cx cz s.world) ∧
      (∀ (x z : Nat) (y : Int), x < 16 → z < 16 →
        (s.chunks (cx, cz)).isSome = false → 0 ≤ y →
        y ≤ generateHeight n (cx * 16 + (x : Int)) (cz * 16 + (z : Int)) →
        (∀ e ∈ chunkTreeWrites n cx cz,
          e.1 ≠ (cx * 16 + (x : Int), y, cz * 16 + (z : Int))) →
        getBlock (generateChunk n s cx cz).world
            (cx * 16 + (x : Int), y, cz * 16 + (z : Int)) =
          strataType y (generateHeight n (cx * 16 + (x : Int)) (cz * 16 + (z : Int)))) ∧
      (∀ p : Int × Int × Int, (∀ e ∈ chunkWrites n cx cz, e.1 ≠ p) →
        getBlock (generateChunk n s cx cz).world p = getBlock s.world p) := by
  have hworld : (s.chunks (cx, cz)).isSome = false →
      (generateChunk n s cx cz).world = generateChunkData n cx cz s.world := by
    intro h
    unfold generateChunk
    rw [if_neg (by simp [h])]
  refine ⟨?_, hworld, ?_, ?_⟩
  · intro hl
    unfold generateChunk
    rw [if_pos hl]
  · intro x z y hx hz hnl hy0 hyh htree
    rw [hworld hnl]
    exact generateChunkData_strata n cx cz s.world x z y hx hz hy0 hyh htree
  · intro p hp
    unfold generateChunk
    split
    · rfl
    · show getBlock (generateChunkData n cx cz s.world) p = getBlock s.world p
      unfold generateChunkData getBlock
      rw [applyWrites_apply_of_not_written _ _ _ hp]

theorem shouldPlaceTree_zero (wx wz : Int) :
    shouldPlaceTree (fun _ _ => 0) wx wz = false := by
  unfold shouldPlaceTree
  have h : ((3 : ℚ)/5 < 0) = False := by norm_num
  simp [h]

theorem treeEmit_zero (wx wz : Int) : treeEmit (fun _ _ => 0) wx wz = [] := by
  unfold treeEmit
  rw [if_neg]
  rintro ⟨h1, -⟩
  rw [shouldPlaceTree_zero] at h1
  exact Bool.false_ne_true h1

/-- C10 witness: with the constant-zero noise sample, `generateChunk`
is a no-op on the loaded chunk of `sOne`; on the fresh state it runs
generation over the retained store; the strata cell `(0, 5, 0)` of
chunk `(0, 0)` (height 10, no trees) comes back as Stone; and the
far-away cell `(100, 0, 0)` is untouched. -/
theorem chunk_regeneration_witness :
    generateChunk (fun _ _ => 0) sOne 0 0 = sOne ∧
      (generateChunk (fun _ _ => 0) initialGState 0 0).world =
        generateChunkData (fun _ _ => 0) 0 0 emptyWorld ∧
      getBlock (generateChunk (fun _ _ => 0) initialGState 0 0).world (0, 5, 0) = 3 ∧
      getBlock (generateChunk (fun _ _ => 0) initialGState 0 0).world (100, 0, 0) =
        getBlock emptyWorld (100, 0, 0) := by
  refine ⟨(chunk_regeneration (fun _ _ => 0) sOne 0 0).1 (by decide),
    (chunk_regeneration (fun _ _ => 0) initialGState 0 0).2.1 (by decide), ?_, ?_⟩
  · have h := (chunk_regeneration (fun _ _ => 0) initialGState 0 0).2.2.1 0 0 5
      (by norm_num) (by norm_num) (by decide) (by norm_num)
      (by norm_num [generateHeight])
      (by
        intro e he
        unfold chunkTreeWrites at he
        rw [List.mem_flatMap] at he
        obtain ⟨x', -, he⟩ := he
        rw [List.mem_flatMap] at he
        obtain ⟨z', -, he⟩ := he
        rw [treeEmit_zero] at he
        exact absurd he (List.not_mem_nil e))
    norm_num [strataType, generateHeight] at h
    exact h
  · refine (chunk_regeneration (fun _ _ => 0) initialGState 0 0).2.2.2 (100, 0, 0) ?_
    intro e he hk
    unfold chunkWrites at he
    rw [List.mem_flatMap] at he
    obtain ⟨x', hx', he⟩ := he
    rw [List.mem_range] at hx'
    rw [List.mem_flatMap] at he
    obtain ⟨z', -, he⟩ := he
    have hs := columnWrites_key_xspan _ _ _ _ he
    rw [hk] at hs
    dsimp only at hs
    omega

theorem generateChunk_world (n : ℚ → ℚ → ℚ) (s : GState) (cx cz : Int)
    (h : (s.chunks (cx, cz)).isSome = false) :
    (generateChunk n s cx cz).world = generateChunkData n cx cz s.world := by
  unfold generateChunk
  rw [if_neg (by simp [h])]

theorem removeChunk_world (s : GState) (cx cz : Int) :
    (removeChunk s cx cz).world = s.world := by
  unfold removeChunk
  split <;> rfl

theorem removeChunk_chunks_self (s : GState) (cx cz : Int) :
    (removeChunk s cx cz).chunks (cx, cz) = none := by
  unfold removeChunk
  split
  · simp
  · next h => exact Option.not_isSome_iff_eq_none.mp (by simpa using h)

/-- A concrete noise function (one session's worth of samples): the
two height octaves give column `(5, 6)` of chunk `(0, 0)` the surface
height 16 and column `(7, 7)` the height 8; the tree channels put a
tree (trunk height 3) at column `(7, 7)`; everywhere else the samples
are -1. -/
def nC10 : ℚ → ℚ → ℚ := fun a b =>
  if a = 3/40 ∧ b = 9/100 then 1
  else if a = 1/5 ∧ b = 6/25 then 1
  else if a = 1021/10 ∧ b = 1021/10 then 1
  else if a = 7/10 ∧ b = 7/10 then 1
  else if a = 21/200 ∧ b = 21/200 then 0
  else -1

theorem nC10_h56 : generateHeight nC10 5 6 = 16 := by
  norm_num [generateHeight, nC10]

theorem nC10_h77 : generateHeight nC10 7 7 = 8 := by
  norm_num [generateHeight, nC10]

theorem nC10_th : trunkHeight nC10 7 7 = 3 := by
  norm_num [trunkHeight, nC10]

theorem nC10_sp : shouldPlaceTree nC10 7 7 = true := by
  norm_num [shouldPlaceTree, nC10]

/-- Regenerating chunk `(0, 0)` with `nC10` ends with Leaves in the
strata cell `(5, 10, 6)`: column `(5, 6)` writes its Stone there, but
the later column `(7, 7)` grows a tree whose canopy overwrites it. -/
theorem regen_leaf_overwrite (w : World) :
    getBlock (generateChunkData nC10 0 0 w) (5, 10, 6) = 5 := by
  have h9 : generateHeight nC10 7 7 + 1 = 9 := by rw [nC10_h77]; norm_num
  have hmemT : ((((5 : Int), (10 : Int), (6 : Int)), (5 : Nat))) ∈
      treeWrites nC10 7 9 7 := by
    simp only [treeWrites, nC10_th]
    decide
  have hmemC : ((((5 : Int), (10 : Int), (6 : Int)), (5 : Nat))) ∈
      columnWrites nC10 7 7 := by
    unfold columnWrites
    refine List.mem_append_right _ ?_
    unfold treeEmit
    rw [if_pos ⟨nC10_sp, by rw [nC10_h77]; norm_num⟩, h9]
    exact hmemT
  have hall7 : ∀ e ∈ (List.range 16).flatMap
      (fun (z : Nat) => columnWrites nC10 7 (z : Int)),
      e.1 = ((5 : Int), (10 : Int), (6 : Int)) → e.2 = 5 := by
    intro e he hk
    rw [List.mem_flatMap] at he
    obtain ⟨z', hz', he⟩ := he
    rw [List.mem_range] at hz'
    unfold columnWrites at he
    rcases List.mem_append.mp he with hs | ht
    · obtain ⟨a, ha, rfl⟩ := (mem_strataWrites _ _ _ _).1 hs
      simp only [Prod.mk.injEq] at hk
      exact absurd hk.1 (by norm_num)
    · unfold treeEmit at ht
      split at ht
      · next hcond =>
          have hz7m := (shouldPlaceTree_mod _ _ _ hcond.1).2
          have hspan := (treeWrites_key_span _ _ _ _ _ ht).2
          have hz6 : e.1.2.2 = 6 := by rw [hk]
          have hzz : (z' : Int) = 7 := by omega
          rw [hzz] at ht
          exact treeWrites_val_off_center _ _ _ _ _ ht (by rw [hk]; norm_num)
      · exact absurd ht (List.not_mem_nil e)
  have hex7 : ∃ e ∈ (List.range 16).flatMap
      (fun (z : Nat) => columnWrites nC10 7 (z : Int)),
      e.1 = ((5 : Int), (10 : Int), (6 : Int)) :=
    ⟨((((5 : Int), (10 : Int), (6 : Int)), (5 : Nat))),
      List.mem_flatMap.mpr ⟨7, by decide, hmemC⟩, rfl⟩
  unfold generateChunkData getBlock
  rw [show chunkWrites nC10 0 0 =
      ((List.range 7).flatMap fun (x : Nat) => (List.range 16).flatMap
        fun (z : Nat) => columnWrites nC10 ((0 : Int) * 16 + (x : Int))
          ((0 : Int) * 16 + (z : Int))) ++
      (((List.range 16).flatMap fun (z : Nat) => columnWrites nC10
          ((0 : Int) * 16 + ((7 : Nat) : Int)) ((0 : Int) * 16 + (z : Int))) ++
        (((List.range 8).map (fun i => 8 + i)).flatMap fun (x : Nat) =>
          (List.range 16).flatMap fun (z : Nat) =>
            columnWrites nC10 ((0 : Int) * 16 + (x : Int))
              ((0 : Int) * 16 + (z : Int)))) from by
    unfold chunkWrites
    rw [show (List.range 16) =
      List.range 7 ++ (7 :: (List.range 8).map (fun i => 8 + i)) from by decide]
    rw [List.flatMap_append, List.flatMap_cons]]
  rw [applyWrites_append, applyWrites_append]
  rw [applyWrites_apply_of_not_written _ _ _ ?_]
  · rw [applyWrites_apply_of_written _ _ _ 5 (by decide) ?_ ?_]
    · rfl
    · simpa using hex7
    · simpa using hall7
  · intro e he hk
    rw [List.mem_flatMap] at he
    obtain ⟨x', hx', he⟩ := he
    rw [List.mem_map] at hx'
    obtain ⟨i, -, rfl⟩ := hx'
    rw [List.mem_flatMap] at he
    obtain ⟨z', -, he⟩ := he
    have hs := columnWrites_key_xspan _ _ _ _ he
    rw [hk] at hs
    dsimp only at hs
    omega

/-- C10 counterexample: generate chunk `(0, 0)` with noise `nC10`,
unload it, and reload it.  The cell `(5, 10, 6)` is a strata cell of
the chunk (`0 ≤ 10 ≤ height(5,6) = 16`, generated type Stone), yet
after the reload it holds Leaves — regeneration does NOT rewrite every
strata cell to its strata type, because the tree regenerated at the
later column `(7, 7)` overwrites it. -/
theorem chunk_regeneration_counterexample :
    getBlock (generateChunk nC10
        (removeChunk (generateChunk nC10 initialGState 0 0) 0 0) 0 0).world
      (5, 10, 6) = 5 ∧
      (0 : Int) ≤ 10 ∧ (10 : Int) ≤ generateHeight nC10 5 6 ∧
      strataType 10 (generateHeight nC10 5 6) = 3 ∧ (5 : Nat) ≠ 3 := by
  refine ⟨?_, by norm_num, by rw [nC10_h56]; norm_num,
    by rw [nC10_h56]; norm_num [strataType], by norm_num⟩
  rw [generateChunk_world nC10 _ 0 0 (by rw [removeChunk_chunks_self]; rfl)]
  exact regen_leaf_overwrite _
